import Mathlib

/-!
Verification of the Sechu valley-bottom delineation algorithm
(`src/algorithms/Sechu_valley_bottom_algorithm.py`).

The development shallowly embeds the parts of `processAlgorithm` and
`initAlgorithm` that carry algorithmic content: the threshold-and-statistics
engine (coarse mask, Pass 2 row scan with cancellation, refined mask), the
mean stage that opens the cost and coarse-mask rasters, the ordered sequence
of `processing.run` calls with their literal parameters, the attribute
schema flowing into the output sink, and the writer loop.  Cell values are
modelled as exact rationals; a raster band is the list of its rows as read
by `ReadAsArray` row by row.
-/

/-- Raster band: the list of its rows of cell values, in scan order. -/
abbrev Raster := List (List ℚ)

/-- Cell of the rastercalculator threshold expression
`if((cost > 0) AND (cost <= t), 1, 0)` used for the coarse mask
(line 243, with `t = cost_threshold`) and the refined mask (line 288,
with `t = mean_cost`). -/
def thresholdMaskCell (t v : ℚ) : ℚ := if 0 < v ∧ v ≤ t then 1 else 0

/-- Threshold mask raster built from a cost raster by the rastercalculator
expression above, cell by cell. -/
def thresholdMaskRaster (t : ℚ) (cost : Raster) : Raster :=
  cost.map (fun row => row.map (thresholdMaskCell t))

/-- Inner x-loop of the Pass 2 scan (lines 272 to 275): over the paired
cost/mask values of one row, add the cost value to the running total and
bump the count whenever the mask value is 1 and the cost is positive. -/
def scanRow : List (ℚ × ℚ) → ℚ × ℕ → ℚ × ℕ
  | [], acc => acc
  | cm :: rest, acc =>
      if cm.2 = 1 ∧ 0 < cm.1 then scanRow rest (acc.1 + cm.1, acc.2 + 1)
      else scanRow rest acc

/-- Outer y-loop of the Pass 2 scan (lines 267 to 275): before each row the
cancellation signal is polled, and a set signal breaks out of the loop,
keeping the accumulator as it stands. -/
def pass2Aux (cancel : ℕ → Bool) : ℕ → List (List ℚ × List ℚ) → ℚ × ℕ → ℚ × ℕ
  | _, [], acc => acc
  | y, r :: rest, acc =>
      if cancel y then acc
      else pass2Aux cancel (y + 1) rest (scanRow (r.1.zip r.2) acc)

/-- Pass 2 (lines 265 to 275): total and count accumulated over the paired
cost and coarse-mask rasters, starting from `(0.0, 0)`. -/
def pass2 (cancel : ℕ → Bool) (cost mask : Raster) : ℚ × ℕ :=
  pass2Aux cancel 0 (cost.zip mask) (0, 0)

/-- Error taxonomy of the run, named after the specification's section 7.
The source raises `QgsProcessingException` with distinct messages for
`inputError` (line 135), `openFailed` (line 259) and `emptySelection`
(line 278); `alignmentError` is listed in the specification's taxonomy but,
as proved below, is never raised by the code. -/
inductive RunError where
  | inputError
  | openFailed
  | emptySelection
  | alignmentError
  deriving DecidableEq, Repr

/-- Decidable equality of run results, so that concrete runs can be
evaluated inside proofs. -/
instance instDecEqExcept {ε α : Type} [DecidableEq ε] [DecidableEq α] :
    DecidableEq (Except ε α)
  | Except.ok x, Except.ok y =>
      if h : x = y then Decidable.isTrue (congrArg Except.ok h)
      else Decidable.isFalse (fun hh => h (by injection hh))
  | Except.ok _, Except.error _ =>
      Decidable.isFalse (fun hh => Except.noConfusion hh)
  | Except.error _, Except.ok _ =>
      Decidable.isFalse (fun hh => Except.noConfusion hh)
  | Except.error x, Except.error y =>
      if h : x = y then Decidable.isTrue (congrArg Except.error h)
      else Decidable.isFalse (fun hh => h (by injection hh))

/-- Mean of an accumulated (total, count) pair, `mean_cost = total / count`
(line 280). -/
def meanOf (s : ℚ × ℕ) : ℚ := s.1 / (s.2 : ℚ)

/-- Threshold-and-statistics engine (lines 238 to 297): build the coarse
mask from the caller threshold, run the Pass 2 scan, raise the
zero-selection error when the count is 0 (lines 277 to 278), and otherwise
compute the mean and build the refined mask over the full cost raster with
the same threshold expression (lines 283 to 297). -/
def thresholdEngine (cancel : ℕ → Bool) (T : ℚ) (cost : Raster) :
    Except RunError (ℚ × Raster) :=
  if (pass2 cancel cost (thresholdMaskRaster T cost)).2 = 0 then
    Except.error RunError.emptySelection
  else
    Except.ok (meanOf (pass2 cancel cost (thresholdMaskRaster T cost)),
      thresholdMaskRaster (meanOf (pass2 cancel cost (thresholdMaskRaster T cost))) cost)

/-- Default of the COST_THRESHOLD parameter, `defaultValue=1500.0`
(initAlgorithm, line 105). -/
def defaultCostThreshold : ℚ := 1500

/-- Default of the GAP_FACTOR parameter, `defaultValue=2.0`
(initAlgorithm, line 115). -/
def defaultGapFactor : ℚ := 2

/-- Parameter keys declared by `initAlgorithm` (lines 81 to 127). -/
def parameterKeys : List String :=
  ["RIVER", "DEM", "COST_THRESHOLD", "GAP_FACTOR", "OUTPUT"]

/-- GDAL dataset as the mean stage sees it: geotransform metadata (origin
and pixel size) plus the band data.  Lines 256 to 275 read only the band;
the metadata fields are available on the opened dataset but the code never
inspects them. -/
structure GeoRaster where
  originX : ℚ
  originY : ℚ
  pixelX : ℚ
  pixelY : ℚ
  data : Raster
  deriving DecidableEq, Repr

/-- Written from the specification's words (sections 3 and 7): two datasets
have matching grid geometry when extent origin and resolution coincide.
Stated for comparison with the code, which performs no such check. -/
def specSameGeometry (a b : GeoRaster) : Prop :=
  a.originX = b.originX ∧ a.originY = b.originY ∧
    a.pixelX = b.pixelX ∧ a.pixelY = b.pixelY

/-- Mean stage of the run (lines 256 to 275): `gdal.Open` on the cost and
coarse-mask rasters, failing only when either open returns `None`
(lines 258 to 259), then the Pass 2 scan over the two bands.  No comparison
of the two datasets' geometry happens anywhere in between. -/
def meanStage (cancel : ℕ → Bool) (costOpt maskOpt : Option GeoRaster) :
    Except RunError (ℚ × ℕ) :=
  match costOpt, maskOpt with
  | none, _ => Except.error RunError.openFailed
  | some _, none => Except.error RunError.openFailed
  | some c, some m => Except.ok (pass2 cancel c.data m.data)

/-- Gap-closing distance, `gap_dist = dem_xres * gap_factor` (line 364). -/
def gap_dist (demXres gapFactor : ℚ) : ℚ := demXres * gapFactor

/-- One `processing.run` invocation, retaining the parameter values the
source passes as literals or simple expressions (parameters irrelevant to
the claims, such as file paths and extents, are omitted). -/
inductive ProcCall where
  | slope (band : ℕ) (scale : ℚ) (asPercent computeEdges zevenbergen : Bool)
  | rasterCalc (cellSize : ℚ)
  | rasterize (burn width height nodata dataType initValue : ℕ)
  | rCost (maxCost : ℚ) (memory : ℕ)
  | polygonize (fieldName : String) (eightConnectedness : Bool)
  | extractByAttribute (fieldName : String) (op : ℕ) (value : ℚ)
  | deleteHoles (minArea : ℚ)
  | smoothGeometry (method iterations : ℕ) (offset : ℚ)
  | buffer (distance : ℚ) (segments : ℕ) (dissolve : Bool)
  deriving DecidableEq, Repr

/-- Ordered sequence of the `processing.run` calls `processAlgorithm`
makes (lines 160 to 395): gdal slope, slope conditioning, river
rasterization, GRASS r.cost, coarse mask, refined mask, polygonize,
extract DN = 1, delete holes, smooth, buffer out, buffer in. -/
def pipelineCalls (demXres gapFactor : ℚ) (widthPx heightPx : ℕ) :
    List ProcCall :=
  [ ProcCall.slope 1 1 false true false,
    ProcCall.rasterCalc demXres,
    ProcCall.rasterize 1 widthPx heightPx 0 5 0,
    ProcCall.rCost 0 300,
    ProcCall.rasterCalc demXres,
    ProcCall.rasterCalc demXres,
    ProcCall.polygonize "DN" false,
    ProcCall.extractByAttribute "DN" 0 1,
    ProcCall.deleteHoles 0,
    ProcCall.smoothGeometry 0 3 (2 / 5),
    ProcCall.buffer (gap_dist demXres gapFactor) 8 true,
    ProcCall.buffer (-(gap_dist demXres gapFactor)) 8 true ]

/-- Field name handed to gdal polygonize, `FIELD: 'DN'` (line 308). -/
def polygonizeFieldName : String := "DN"

/-- Modelled from the spec: `polygonize(raster, band) → layer[with integer
class field]` (section 6) — the polygonized layer carries exactly the class
field named by the caller. -/
def polygonizeFields : List String := [polygonizeFieldName]

/-- Modelled from the spec: `filter_by_attribute`, `remove_holes`,
`smooth_boundary` and `buffer` (sections 4.5, 4.6 and 6) select features or
transform their geometry; the attribute schema of the layer passes through
unchanged. -/
def geometryOpFields (fields : List String) : List String := fields

/-- Attribute schema of `gaps_closed`: polygonize output filtered by
attribute, holes deleted, smoothed, buffered out and buffered in
(lines 318 to 395), each step schema-preserving. -/
def gapsClosedFields : List String :=
  geometryOpFields (geometryOpFields (geometryOpFields (geometryOpFields
    (geometryOpFields polygonizeFields))))

/-- Schema the output sink is created with: `gaps_closed.fields()`
(lines 398 to 405). -/
def sinkFields : List String := gapsClosedFields

/-- Writer loop (lines 407 to 410): forward each feature of the gap-closed
layer to the sink unchanged, stopping at the first feature index where the
cancellation signal is set. -/
def writtenFeatures {α : Type} (cancel : ℕ → Bool) : ℕ → List α → List α
  | _, [] => []
  | i, f :: rest =>
      if cancel i then [] else f :: writtenFeatures cancel (i + 1) rest

/-- Cancellation signal of a run whose cancel flag becomes set after the
first row of the Pass 2 scan has been processed. -/
def cancelAfterFirstRow (y : ℕ) : Bool := decide (1 ≤ y)

/-- Written from the specification's words (section 4.4, Pass 2): the cost
values of the cells of one row where the mask value is 1 and the cost is
positive, in scan order. -/
def specRowQualifying (ps : List (ℚ × ℚ)) : List ℚ :=
  (ps.filter (fun cm => decide (cm.2 = 1 ∧ 0 < cm.1))).map Prod.fst

/-- Written from the specification's words (section 4.4, Pass 2): all
qualifying cost values of the paired cost/mask rows, row by row. -/
def specQualifying : List (List ℚ × List ℚ) → List ℚ
  | [] => []
  | r :: rest => specRowQualifying (r.1.zip r.2) ++ specQualifying rest

/-- Cell of the slope-conditioning rastercalculator expression
`("slope_raster@1" * dem_xres) + 0.00001` (line 183): slope times the DEM
pixel size plus the constant floor `0.00001`. -/
def frictionCell (demXres slope : ℚ) : ℚ := slope * demXres + 1 / 100000

/-- Friction grid of the run: the conditioned slope raster produced by the
slope-conditioning call (lines 178 to 192), cell by cell. -/
def frictionGrid (demXres : ℚ) (slopeR : Raster) : Raster :=
  slopeR.map (fun row => row.map (frictionCell demXres))

/-- Concrete opened cost dataset for the alignment analysis: origin at 0,
pixel size 10, one cell of accumulated cost 5. -/
def costOpenedExample : GeoRaster :=
  { originX := 0, originY := 0, pixelX := 10, pixelY := 10, data := [[5]] }

/-- Concrete opened coarse-mask dataset whose origin disagrees with the
cost dataset: origin at 100, pixel size 10, one cell of mask value 1. -/
def maskOpenedExample : GeoRaster :=
  { originX := 100, originY := 0, pixelX := 10, pixelY := 10, data := [[1]] }

/-- A threshold-mask cell is 1 exactly when the cost is positive and at
most the threshold. -/
lemma thresholdMaskCell_eq_one {t v : ℚ} :
    thresholdMaskCell t v = 1 ↔ (0 < v ∧ v ≤ t) := by
  unfold thresholdMaskCell
  by_cases h : 0 < v ∧ v ≤ t <;> simp [h]

/-- In a list zipped with its own image under a map, the second component
of every pair is the image of the first. -/
lemma zip_map_snd {α β : Type} (f : α → β) :
    ∀ {l : List α} {p : α × β}, p ∈ l.zip (l.map f) → p.2 = f p.1 := by
  intro l
  induction l with
  | nil => intro p hp; simp at hp
  | cons a tl ih =>
      intro p hp
      rcases List.mem_cons.mp hp with h | h
      · subst h; rfl
      · exact ih h

/-- Every pair of the zip of two images of one list under two maps is the
pair of images of a single element. -/
lemma zip_map_map {α β γ : Type} (f : α → β) (g : α → γ) :
    ∀ {l : List α} {p : β × γ}, p ∈ (l.map f).zip (l.map g) →
      ∃ a, p = (f a, g a) := by
  intro l
  induction l with
  | nil => intro p hp; simp at hp
  | cons a tl ih =>
      intro p hp
      rcases List.mem_cons.mp hp with h | h
      · exact ⟨a, h⟩
      · exact ih h

/-- The row scan adds the sum and count of the row's qualifying values to
the accumulator. -/
lemma scanRow_eq (ps : List (ℚ × ℚ)) :
    ∀ acc : ℚ × ℕ, scanRow ps acc =
      (acc.1 + (specRowQualifying ps).sum,
       acc.2 + (specRowQualifying ps).length) := by
  induction ps with
  | nil => intro acc; simp [scanRow, specRowQualifying]
  | cons cm rest ih =>
      intro acc
      by_cases hc : cm.2 = 1 ∧ 0 < cm.1
      · have hq : specRowQualifying (cm :: rest) =
            cm.1 :: specRowQualifying rest := by
          simp [specRowQualifying, List.filter_cons, hc]
        rw [scanRow, if_pos hc, ih, hq, List.sum_cons, List.length_cons]
        refine Prod.ext ?_ ?_
        · show acc.1 + cm.1 + (specRowQualifying rest).sum =
            acc.1 + (cm.1 + (specRowQualifying rest).sum)
          ring
        · show acc.2 + 1 + (specRowQualifying rest).length =
            acc.2 + ((specRowQualifying rest).length + 1)
          omega
      · have hq : specRowQualifying (cm :: rest) = specRowQualifying rest := by
          simp [specRowQualifying, List.filter_cons, hc]
        rw [scanRow, if_neg hc, ih, hq]

/-- Without cancellation, the Pass 2 loop adds the sum and count of all
qualifying values to the accumulator, whatever the starting row index. -/
lemma pass2Aux_noCancel (rows : List (List ℚ × List ℚ)) :
    ∀ (y : ℕ) (acc : ℚ × ℕ),
      pass2Aux (fun _ => false) y rows acc =
        (acc.1 + (specQualifying rows).sum,
         acc.2 + (specQualifying rows).length) := by
  induction rows with
  | nil => intro y acc; simp [pass2Aux, specQualifying]
  | cons r rest ih =>
      intro y acc
      simp only [pass2Aux, if_neg (by simp : ¬ (fun _ => false) y = true), ih,
        scanRow_eq, specQualifying, List.sum_append, List.length_append]
      exact Prod.ext (by ring) (by omega)

/-- Invariant of the row scan: when every pair whose mask component is 1
has its cost component in the half-open interval `(0, T]`, a sound
accumulator stays sound — the total is non-negative, at most count times
`T`, and positive as soon as the count is. -/
lemma scanRow_invariant (T : ℚ) :
    ∀ (ps : List (ℚ × ℚ)) (acc : ℚ × ℕ),
      (∀ p ∈ ps, p.2 = 1 → 0 < p.1 ∧ p.1 ≤ T) →
      0 ≤ acc.1 → acc.1 ≤ (acc.2 : ℚ) * T → (1 ≤ acc.2 → 0 < acc.1) →
      0 ≤ (scanRow ps acc).1 ∧
        (scanRow ps acc).1 ≤ ((scanRow ps acc).2 : ℚ) * T ∧
        (1 ≤ (scanRow ps acc).2 → 0 < (scanRow ps acc).1) := by
  intro ps
  induction ps with
  | nil => intro acc _ h0 h1 h2; exact ⟨h0, h1, h2⟩
  | cons cm rest ih =>
      intro acc hps h0 h1 h2
      by_cases hc : cm.2 = 1 ∧ 0 < cm.1
      · have hcm := hps cm (List.mem_cons_self cm rest) hc.1
        rw [scanRow, if_pos hc]
        refine ih (acc.1 + cm.1, acc.2 + 1)
          (fun p hp hm => hps p (List.mem_cons_of_mem cm hp) hm) ?_ ?_ ?_
        · exact add_nonneg h0 (le_of_lt hcm.1)
        · show acc.1 + cm.1 ≤ ((acc.2 + 1 : ℕ) : ℚ) * T
          push_cast
          nlinarith [hcm.2, h1]
        · intro _
          exact add_pos_of_nonneg_of_pos h0 hcm.1
      · rw [scanRow, if_neg hc]
        exact ih acc (fun p hp hm => hps p (List.mem_cons_of_mem cm hp) hm)
          h0 h1 h2

/-- Invariant of the Pass 2 loop, lifted from the row scan, for any
cancellation signal. -/
lemma pass2Aux_invariant (T : ℚ) (cancel : ℕ → Bool) :
    ∀ (rows : List (List ℚ × List ℚ)) (y : ℕ) (acc : ℚ × ℕ),
      (∀ r ∈ rows, ∀ p ∈ r.1.zip r.2, p.2 = 1 → 0 < p.1 ∧ p.1 ≤ T) →
      0 ≤ acc.1 → acc.1 ≤ (acc.2 : ℚ) * T → (1 ≤ acc.2 → 0 < acc.1) →
      0 ≤ (pass2Aux cancel y rows acc).1 ∧
        (pass2Aux cancel y rows acc).1 ≤
          ((pass2Aux cancel y rows acc).2 : ℚ) * T ∧
        (1 ≤ (pass2Aux cancel y rows acc).2 →
          0 < (pass2Aux cancel y rows acc).1) := by
  intro rows
  induction rows with
  | nil => intro y acc _ h0 h1 h2; exact ⟨h0, h1, h2⟩
  | cons r rest ih =>
      intro y acc hrows h0 h1 h2
      rw [pass2Aux]
      by_cases hy : cancel y
      · rw [if_pos hy]; exact ⟨h0, h1, h2⟩
      · rw [if_neg hy]
        have hrow := hrows r (List.mem_cons_self r rest)
        have hs := scanRow_invariant T (r.1.zip r.2) acc hrow h0 h1 h2
        exact ih (y + 1) (scanRow (r.1.zip r.2) acc)
          (fun q hq => hrows q (List.mem_cons_of_mem r hq))
          hs.1 hs.2.1 hs.2.2

/-- When the mask raster is the threshold mask of the cost raster, every
qualifying pair seen by the Pass 2 scan has its cost in `(0, T]`. -/
lemma pass2_rows_sound (T : ℚ) (cost : Raster) :
    ∀ r ∈ cost.zip (thresholdMaskRaster T cost),
      ∀ p ∈ r.1.zip r.2, p.2 = 1 → 0 < p.1 ∧ p.1 ≤ T := by
  intro r hr p hp hm
  have hrow : r.2 = r.1.map (thresholdMaskCell T) := by
    have := zip_map_snd (List.map (thresholdMaskCell T)) (l := cost) (p := r)
    apply this
    simpa [thresholdMaskRaster] using hr
  rw [hrow] at hp
  have hcell := zip_map_snd (thresholdMaskCell T) hp
  rw [hcell] at hm
  exact thresholdMaskCell_eq_one.mp hm

/-- Bounds on the accumulated Pass 2 statistics of a run: total is
non-negative, bounded by count times the threshold, and positive as soon
as the count is positive. -/
lemma pass2_bounds (cancel : ℕ → Bool) (T : ℚ) (cost : Raster) :
    0 ≤ (pass2 cancel cost (thresholdMaskRaster T cost)).1 ∧
      (pass2 cancel cost (thresholdMaskRaster T cost)).1 ≤
        ((pass2 cancel cost (thresholdMaskRaster T cost)).2 : ℚ) * T ∧
      (1 ≤ (pass2 cancel cost (thresholdMaskRaster T cost)).2 →
        0 < (pass2 cancel cost (thresholdMaskRaster T cost)).1) := by
  unfold pass2
  exact pass2Aux_invariant T cancel (cost.zip (thresholdMaskRaster T cost)) 0
    (0, 0) (pass2_rows_sound T cost) le_rfl (by simp) (by omega)

/-- When the cancellation signal first becomes set at row `k`, the Pass 2
loop behaves exactly like an uncancelled scan of the rows before `k`. -/
lemma pass2Aux_first_cancel (cancel : ℕ → Bool) (k : ℕ)
    (hk : cancel k = true) (hbefore : ∀ j, j < k → cancel j = false) :
    ∀ (rows : List (List ℚ × List ℚ)) (y : ℕ) (acc : ℚ × ℕ), y ≤ k →
      pass2Aux cancel y rows acc =
        pass2Aux (fun _ => false) y (rows.take (k - y)) acc := by
  intro rows
  induction rows with
  | nil => intro y acc _; simp [pass2Aux]
  | cons r rest ih =>
      intro y acc hy
      rcases Nat.lt_or_ge y k with hlt | hge
      · have hcy : cancel y = false := hbefore y hlt
        obtain ⟨n, hn⟩ : ∃ n, k - y = n + 1 := ⟨k - y - 1, by omega⟩
        rw [pass2Aux, hcy, if_neg (by simp), hn, List.take_succ_cons,
          pass2Aux, if_neg (by simp)]
        have hn2 : k - (y + 1) = n := by omega
        rw [ih (y + 1) (scanRow (r.1.zip r.2) acc) (by omega), hn2]
      · have hyk : y = k := le_antisymm hy hge
        subst hyk
        rw [pass2Aux, if_pos hk]
        simp [pass2Aux]

/-- Reading a mapped list at an index, with a default that is a fixed point
of the map, gives the image of the unmapped read. -/
lemma getD_map_fix {α β : Type} (f : α → β) (l : List α) (n : ℕ)
    (d : α) (e : β) (hd : f d = e) : (l.map f).getD n e = f (l.getD n d) := by
  induction l generalizing n with
  | nil => simp [List.getD, hd]
  | cons a tl ih =>
      cases n with
      | zero => simp [List.getD]
      | succ m => simpa [List.getD] using ih m

/-- C3: at every cell of the cost surface the coarse mask is 1 exactly when
the accumulated cost there is strictly positive and at most the
caller-supplied initial cost threshold, and 0 at every other cell; the
threshold parameter defaults to 1500.0. -/
theorem coarse_mask_iff_cost_in_threshold (T : ℚ) (cost : Raster) (y x : ℕ) :
    ((thresholdMaskRaster T cost).getD y []).getD x 0 =
      (if 0 < (cost.getD y []).getD x 0 ∧ (cost.getD y []).getD x 0 ≤ T
       then 1 else 0) ∧
    defaultCostThreshold = 1500 := by
  constructor
  · have houter : (thresholdMaskRaster T cost).getD y [] =
        (cost.getD y []).map (thresholdMaskCell T) :=
      getD_map_fix (List.map (thresholdMaskCell T)) cost y [] [] rfl
    have hinner : ((cost.getD y []).map (thresholdMaskCell T)).getD x 0 =
        thresholdMaskCell T ((cost.getD y []).getD x 0) :=
      getD_map_fix (thresholdMaskCell T) (cost.getD y []) x 0 0
        (by simp [thresholdMaskCell])
    rw [houter, hinner]
    rfl
  · rfl

/-- C4: a Pass 2 qualifying count of zero makes the run fail with the
empty-selection error; the engine's entire result is that error, so no
refined mask is built, no output is produced, and no retry is attempted. -/
theorem zero_count_raises_empty_selection (cancel : ℕ → Bool) (T : ℚ)
    (cost : Raster)
    (h : (pass2 cancel cost (thresholdMaskRaster T cost)).2 = 0) :
    thresholdEngine cancel T cost = Except.error RunError.emptySelection := by
  unfold thresholdEngine
  rw [if_pos h]

/-- Witness for C4 on a one-cell cost raster whose only cell has cost 0,
so no cell qualifies under threshold 5. -/
theorem zero_count_raises_empty_selection_witness :
    (pass2 (fun _ => false) [[0]] (thresholdMaskRaster 5 [[0]])).2 = 0 ∧
    thresholdEngine (fun _ => false) 5 [[0]] =
      Except.error RunError.emptySelection :=
  ⟨by decide,
   zero_count_raises_empty_selection (fun _ => false) 5 [[0]] (by decide)⟩

/-- C7: the friction grid is slope times pixel size plus the strictly
positive constant 0.00001, so on any slope raster with non-negative slopes
(flat terrain included) every cell of the friction grid is strictly
positive. -/
theorem friction_grid_strictly_positive (demXres : ℚ) (slopeR : Raster)
    (hdx : 0 ≤ demXres) (hs : ∀ r ∈ slopeR, ∀ s ∈ r, 0 ≤ s) :
    (∀ r ∈ frictionGrid demXres slopeR, ∀ v ∈ r, 0 < v) ∧
    (∀ s : ℚ, frictionCell demXres s = s * demXres + 1 / 100000) ∧
    0 < (1 : ℚ) / 100000 := by
  refine ⟨?_, fun s => rfl, by norm_num⟩
  intro r hr v hv
  rcases List.mem_map.mp hr with ⟨row, hrow, hmap⟩
  rcases List.mem_map.mp (hmap ▸ hv) with ⟨s, hsrow, hcell⟩
  have hs0 : 0 ≤ s := hs row hrow s hsrow
  rw [← hcell]
  unfold frictionCell
  have : 0 ≤ s * demXres := mul_nonneg hs0 hdx
  nlinarith

/-- Witness for C7 on a flat one-cell slope raster with pixel size 10. -/
theorem friction_grid_strictly_positive_witness :
    0 ≤ (10 : ℚ) ∧ (∀ r ∈ ([[0]] : Raster), ∀ s ∈ r, 0 ≤ s) ∧
    ((∀ r ∈ frictionGrid 10 [[0]], ∀ v ∈ r, 0 < v) ∧
     (∀ s : ℚ, frictionCell 10 s = s * 10 + 1 / 100000) ∧
     0 < (1 : ℚ) / 100000) :=
  ⟨by norm_num, by decide,
   friction_grid_strictly_positive 10 [[0]] (by norm_num) (by decide)⟩

/-- C8: the gap closer computes the gap distance as the DEM pixel size
times the gap buffer factor (default 2.0) and, right after the smoothing
call, runs a dissolved buffer outward by that distance and then a dissolved
buffer inward by its negation, in that order. -/
theorem gap_closer_buffer_out_then_in (demXres gapFactor : ℚ)
    (widthPx heightPx : ℕ) :
    (pipelineCalls demXres gapFactor widthPx heightPx).drop 9 =
      [ProcCall.smoothGeometry 0 3 (2 / 5),
       ProcCall.buffer (gap_dist demXres gapFactor) 8 true,
       ProcCall.buffer (-(gap_dist demXres gapFactor)) 8 true] ∧
    gap_dist demXres gapFactor = demXres * gapFactor ∧
    defaultGapFactor = 2 :=
  ⟨rfl, rfl, rfl⟩

/-- C10: whatever the inputs and parameters, the cost-distance call in the
pipeline is made with a maximum-cost cutoff of 0 and a memory budget of
300, and the caller-facing parameters are exactly the five declared keys,
none of which exposes either value. -/
theorem rcost_fixed_cutoff_and_memory (demXres gapFactor : ℚ)
    (widthPx heightPx : ℕ) :
    (pipelineCalls demXres gapFactor widthPx heightPx)[3]? =
      some (ProcCall.rCost 0 300) ∧
    parameterKeys = ["RIVER", "DEM", "COST_THRESHOLD", "GAP_FACTOR", "OUTPUT"] :=
  ⟨rfl, rfl⟩

/-- C1: whenever Pass 2 counts at least one qualifying cell, the Pass 2
mean lies in the half-open interval (0, T], and consequently every cell set
to 1 in the refined mask is also set to 1 in the coarse mask. -/
theorem pass2_mean_in_range_and_refined_subset (cancel : ℕ → Bool) (T : ℚ)
    (cost : Raster)
    (h : 1 ≤ (pass2 cancel cost (thresholdMaskRaster T cost)).2) :
    0 < meanOf (pass2 cancel cost (thresholdMaskRaster T cost)) ∧
    meanOf (pass2 cancel cost (thresholdMaskRaster T cost)) ≤ T ∧
    ∀ rp ∈ (thresholdMaskRaster
        (meanOf (pass2 cancel cost (thresholdMaskRaster T cost))) cost).zip
        (thresholdMaskRaster T cost),
      ∀ p ∈ rp.1.zip rp.2, p.1 = 1 → p.2 = 1 := by
  obtain ⟨h0, h1, h2⟩ := pass2_bounds cancel T cost
  set s := pass2 cancel cost (thresholdMaskRaster T cost) with hs
  have hcount : (0 : ℚ) < (s.2 : ℚ) := by
    exact_mod_cast Nat.lt_of_lt_of_le Nat.zero_lt_one h
  have htotal : 0 < s.1 := h2 h
  have hmean0 : 0 < meanOf s := div_pos htotal hcount
  have hmeanT : meanOf s ≤ T := by
    rw [meanOf, div_le_iff₀ hcount]
    linarith [h1]
  refine ⟨hmean0, hmeanT, ?_⟩
  intro rp hrp p hp hone
  simp only [thresholdMaskRaster] at hrp
  rcases zip_map_map (fun row : List ℚ => row.map (thresholdMaskCell (meanOf s)))
    (fun row : List ℚ => row.map (thresholdMaskCell T)) hrp with ⟨row, hrow⟩
  rw [hrow] at hp
  rcases zip_map_map (thresholdMaskCell (meanOf s)) (thresholdMaskCell T) hp
    with ⟨v, hv⟩
  rw [hv] at hone
  have hv1 := thresholdMaskCell_eq_one.mp hone
  rw [hv]
  exact thresholdMaskCell_eq_one.mpr ⟨hv1.1, le_trans hv1.2 hmeanT⟩

/-- Witness for C1 on a two-row cost raster with cells 1 and 3 under
threshold 10: two cells qualify. -/
theorem pass2_mean_in_range_and_refined_subset_witness :
    1 ≤ (pass2 (fun _ => false) [[1], [3]]
        (thresholdMaskRaster 10 [[1], [3]])).2 ∧
    (0 < meanOf (pass2 (fun _ => false) [[1], [3]]
        (thresholdMaskRaster 10 [[1], [3]])) ∧
     meanOf (pass2 (fun _ => false) [[1], [3]]
        (thresholdMaskRaster 10 [[1], [3]])) ≤ 10 ∧
     ∀ rp ∈ (thresholdMaskRaster
         (meanOf (pass2 (fun _ => false) [[1], [3]]
            (thresholdMaskRaster 10 [[1], [3]]))) [[1], [3]]).zip
         (thresholdMaskRaster 10 [[1], [3]]),
       ∀ p ∈ rp.1.zip rp.2, p.1 = 1 → p.2 = 1) :=
  ⟨by decide, pass2_mean_in_range_and_refined_subset (fun _ => false) 10
    [[1], [3]] (by decide)⟩

/-- C2: in an uncancelled run with at least one qualifying cell, Pass 2
returns exactly the sum and count of the cost values of cells with coarse
mask 1 and positive cost, scanned row by row; the engine then succeeds
with their mean and the refined mask, and the Pass 3 cell rule sets a mask
cell to 1 exactly when the cost there is positive and at most the mean. -/
theorem pass2_streams_qualifying_cells (T : ℚ) (cost : Raster)
    (h : 1 ≤ (specQualifying (cost.zip (thresholdMaskRaster T cost))).length) :
    pass2 (fun _ => false) cost (thresholdMaskRaster T cost) =
      ((specQualifying (cost.zip (thresholdMaskRaster T cost))).sum,
       (specQualifying (cost.zip (thresholdMaskRaster T cost))).length) ∧
    thresholdEngine (fun _ => false) T cost =
      Except.ok
        (meanOf ((specQualifying (cost.zip (thresholdMaskRaster T cost))).sum,
          (specQualifying (cost.zip (thresholdMaskRaster T cost))).length),
         thresholdMaskRaster
           (meanOf ((specQualifying (cost.zip (thresholdMaskRaster T cost))).sum,
             (specQualifying (cost.zip (thresholdMaskRaster T cost))).length))
           cost) ∧
    ∀ m v : ℚ, thresholdMaskCell m v = 1 ↔ (0 < v ∧ v ≤ m) := by
  have hp : pass2 (fun _ => false) cost (thresholdMaskRaster T cost) =
      ((specQualifying (cost.zip (thresholdMaskRaster T cost))).sum,
       (specQualifying (cost.zip (thresholdMaskRaster T cost))).length) := by
    unfold pass2
    rw [pass2Aux_noCancel]
    simp
  refine ⟨hp, ?_, fun m v => thresholdMaskCell_eq_one⟩
  unfold thresholdEngine
  rw [hp, if_neg (show
    ¬ (specQualifying (cost.zip (thresholdMaskRaster T cost))).length = 0
    from by omega)]

/-- Witness for C2 on a two-row cost raster with cells 1 and 3 under
threshold 10 (mean 2). -/
theorem pass2_streams_qualifying_cells_witness :
    1 ≤ (specQualifying (([[1], [3]] : Raster).zip
        (thresholdMaskRaster 10 [[1], [3]]))).length ∧
    (pass2 (fun _ => false) [[1], [3]] (thresholdMaskRaster 10 [[1], [3]]) =
      ((specQualifying (([[1], [3]] : Raster).zip
          (thresholdMaskRaster 10 [[1], [3]]))).sum,
       (specQualifying (([[1], [3]] : Raster).zip
          (thresholdMaskRaster 10 [[1], [3]]))).length) ∧
     thresholdEngine (fun _ => false) 10 [[1], [3]] =
      Except.ok
        (meanOf ((specQualifying (([[1], [3]] : Raster).zip
            (thresholdMaskRaster 10 [[1], [3]]))).sum,
          (specQualifying (([[1], [3]] : Raster).zip
            (thresholdMaskRaster 10 [[1], [3]]))).length),
         thresholdMaskRaster
           (meanOf ((specQualifying (([[1], [3]] : Raster).zip
               (thresholdMaskRaster 10 [[1], [3]]))).sum,
             (specQualifying (([[1], [3]] : Raster).zip
               (thresholdMaskRaster 10 [[1], [3]]))).length))
           [[1], [3]]) ∧
     ∀ m v : ℚ, thresholdMaskCell m v = 1 ↔ (0 < v ∧ v ≤ m)) :=
  ⟨by decide, pass2_streams_qualifying_cells 10 [[1], [3]] (by decide)⟩

/-- Counterexample to C5: a run whose cancellation signal is set from the
second row boundary of the Pass 2 scan onward does not terminate with no
output — it still emits a refined mask, and that mask comes from partial
statistics: the canceled run uses mean 1 (first row only) where the
uncancelled scan of the same raster yields mean 2. -/
theorem canceled_run_still_emits_refined_mask :
    cancelAfterFirstRow 1 = true ∧
    thresholdEngine cancelAfterFirstRow 10 [[1], [3]] =
      Except.ok (1, [[1], [0]]) ∧
    thresholdEngine (fun _ => false) 10 [[1], [3]] =
      Except.ok (2, [[1], [0]]) := by
  refine ⟨rfl, ?_, ?_⟩ <;>
    norm_num [thresholdEngine, pass2, pass2Aux, scanRow, thresholdMaskRaster,
      thresholdMaskCell, meanOf, cancelAfterFirstRow]

/-- Taking a prefix of a zip is zipping the prefixes. -/
lemma take_zip_eq {α β : Type} :
    ∀ (l : List α) (m : List β) (n : ℕ),
      (l.zip m).take n = (l.take n).zip (m.take n) := by
  intro l
  induction l with
  | nil => intro m n; simp
  | cons a tl ih =>
      intro m n
      cases m with
      | nil => simp
      | cons b tm =>
          cases n with
          | zero => simp
          | succ j => simp [List.zip_cons_cons, List.take_succ_cons, ih]

/-- C5 amended: the cancellation signal is polled at each row boundary of
the Pass 2 scan and stops the scan at the first boundary where it is set;
but the run does not terminate there — it continues with the statistics of
the rows already scanned, failing with the empty-selection error when they
are empty and otherwise emitting a refined mask computed over the full
raster from the partial mean. -/
theorem cancellation_stops_scan_not_run (cancel : ℕ → Bool) (k : ℕ)
    (T : ℚ) (cost : Raster) (hk : cancel k = true)
    (hbefore : ∀ j, j < k → cancel j = false) :
    thresholdEngine cancel T cost =
      (if (pass2 (fun _ => false) (cost.take k)
            (thresholdMaskRaster T (cost.take k))).2 = 0 then
         Except.error RunError.emptySelection
       else
         Except.ok
           (meanOf (pass2 (fun _ => false) (cost.take k)
              (thresholdMaskRaster T (cost.take k))),
            thresholdMaskRaster
              (meanOf (pass2 (fun _ => false) (cost.take k)
                 (thresholdMaskRaster T (cost.take k)))) cost)) := by
  have hmask : (thresholdMaskRaster T cost).take k =
      thresholdMaskRaster T (cost.take k) := by
    simp [thresholdMaskRaster, List.map_take]
  have hzip : (cost.zip (thresholdMaskRaster T cost)).take k =
      (cost.take k).zip (thresholdMaskRaster T (cost.take k)) := by
    rw [← hmask, take_zip_eq]
  have hp : pass2 cancel cost (thresholdMaskRaster T cost) =
      pass2 (fun _ => false) (cost.take k)
        (thresholdMaskRaster T (cost.take k)) := by
    unfold pass2
    rw [pass2Aux_first_cancel cancel k hk hbefore
      (cost.zip (thresholdMaskRaster T cost)) 0 (0, 0) (Nat.zero_le k),
      Nat.sub_zero, hzip]
  unfold thresholdEngine
  rw [hp]

/-- Witness for the amended C5: signal set from the second row boundary,
threshold 10, two-row raster with cells 1 and 3. -/
theorem cancellation_stops_scan_not_run_witness :
    cancelAfterFirstRow 1 = true ∧
    (∀ j, j < 1 → cancelAfterFirstRow j = false) ∧
    thresholdEngine cancelAfterFirstRow 10 [[1], [3]] =
      (if (pass2 (fun _ => false) (([[1], [3]] : Raster).take 1)
            (thresholdMaskRaster 10 (([[1], [3]] : Raster).take 1))).2 = 0 then
         Except.error RunError.emptySelection
       else
         Except.ok
           (meanOf (pass2 (fun _ => false) (([[1], [3]] : Raster).take 1)
              (thresholdMaskRaster 10 (([[1], [3]] : Raster).take 1))),
            thresholdMaskRaster
              (meanOf (pass2 (fun _ => false) (([[1], [3]] : Raster).take 1)
                 (thresholdMaskRaster 10 (([[1], [3]] : Raster).take 1))))
              [[1], [3]])) :=
  ⟨by decide, by decide,
   cancellation_stops_scan_not_run cancelAfterFirstRow 1 10 [[1], [3]]
     (by decide) (by decide)⟩

/-- Counterexample to C6: opened cost and coarse-mask datasets whose grid
geometries disagree (origins 0 and 100) are processed by the mean stage
with no alignment failure at all — the scan runs and succeeds. -/
theorem geometry_mismatch_not_rejected :
    ¬ specSameGeometry costOpenedExample maskOpenedExample ∧
    meanStage (fun _ => false) (some costOpenedExample)
      (some maskOpenedExample) = Except.ok (5, 1) := by
  constructor
  · intro hsame
    have h0 := hsame.1
    simp [costOpenedExample, maskOpenedExample] at h0
  · norm_num [meanStage, pass2, pass2Aux, scanRow, costOpenedExample,
      maskOpenedExample]

/-- C6 amended: the mean stage validates only that the two rasters opened;
it performs no grid-geometry validation — its result is never the
alignment error, and on any two opened datasets it depends only on the
band data, whatever their geometries. -/
theorem no_alignment_validation (cancel : ℕ → Bool)
    (costOpt maskOpt : Option GeoRaster) :
    meanStage cancel costOpt maskOpt ≠
      Except.error RunError.alignmentError ∧
    ∀ a b : GeoRaster, meanStage cancel (some a) (some b) =
      Except.ok (pass2 cancel a.data b.data) := by
  refine ⟨?_, fun a b => rfl⟩
  cases costOpt <;> cases maskOpt <;> simp [meanStage]

/-- Counterexample to C9: the schema the output sink is created with is not
empty, so the emitted features carry at least one attribute field beyond
their geometry. -/
theorem sink_fields_not_empty : sinkFields ≠ ([] : List String) := by
  decide

/-- Under a clear cancellation signal the writer loop forwards the whole
feature list, from any starting index. -/
lemma writtenFeatures_noCancel {α : Type} (feats : List α) :
    ∀ i, writtenFeatures (fun _ => false) i feats = feats := by
  induction feats with
  | nil => intro i; rfl
  | cons f rest ih =>
      intro i
      rw [writtenFeatures, if_neg (by simp), ih]

/-- C9 amended: every feature the run writes carries its polygon geometry
plus exactly the attribute schema of the gap-closed layer — the single
integer class field DN inherited from polygonization — and the writer
itself forwards features unchanged, adding no further attributes. -/
theorem sink_fields_single_class_field :
    sinkFields = [polygonizeFieldName] ∧
    ∀ (α : Type) (feats : List α),
      writtenFeatures (fun _ => false) 0 feats = feats :=
  ⟨rfl, fun _ feats => writtenFeatures_noCancel feats 0⟩
